import Mathlib

/-!
Verification of the ab3gy-adif library (adif.py, adif_iter.py).

The Python code is shallowly embedded: strings become lists of characters,
Python dictionaries become association lists with in-place update semantics,
code that can raise an exception returns an Option (none models a raised
exception), and object aliasing is modelled by an explicit heap of record
dictionaries indexed by natural-number references.  The model is restricted
to ASCII text, which is the only alphabet the ADIF wire format and the
claims exercise.
-/

namespace Adif

/-- Python strings are modelled as lists of characters. -/
abbrev Str := List Char

/-- Python dictionaries mapping strings to strings, as insertion-ordered
association lists. -/
abbrev Dict := List (Str × Str)

/-- Convenience conversion from a Lean string literal to the model. -/
def str (s : String) : Str := s.data

/-- Characters stripped by the Python str.strip method (ASCII whitespace). -/
def isPySpace (c : Char) : Bool :=
  c == ' ' || c == '\t' || c == '\n' || c == '\r' || c == '\x0b' || c == '\x0c'

/-- ASCII upper-casing of one character, as done by the Python str.upper
method on ASCII input. -/
def upChar (c : Char) : Char :=
  match c with
  | 'a' => 'A' | 'b' => 'B' | 'c' => 'C' | 'd' => 'D' | 'e' => 'E' | 'f' => 'F'
  | 'g' => 'G' | 'h' => 'H' | 'i' => 'I' | 'j' => 'J' | 'k' => 'K' | 'l' => 'L'
  | 'm' => 'M' | 'n' => 'N' | 'o' => 'O' | 'p' => 'P' | 'q' => 'Q' | 'r' => 'R'
  | 's' => 'S' | 't' => 'T' | 'u' => 'U' | 'v' => 'V' | 'w' => 'W' | 'x' => 'X'
  | 'y' => 'Y' | 'z' => 'Z' | other => other

/-- The Python str.upper method (ASCII model). -/
def pyUpper (s : Str) : Str := s.map upChar

/-- The Python str.strip method with no argument. -/
def pyStrip (s : Str) : Str :=
  ((s.dropWhile isPySpace).reverse.dropWhile isPySpace).reverse

/-- Field-name normalisation performed by adif.set_field, del_field,
get_field and has_field: field.strip().upper(). -/
def normKey (s : Str) : Str := pyUpper (pyStrip s)

/-- Dictionary lookup: d[k] as an Option. -/
def dictLookup (d : Dict) (k : Str) : Option Str :=
  (d.find? (fun p => p.1 == k)).map (fun p => p.2)

/-- Dictionary membership: k in d. -/
def dictHas (d : Dict) (k : Str) : Bool := d.any (fun p => p.1 == k)

/-- Dictionary store d[k] = v: updates the value in place if the key is
present (keeping its position), otherwise appends a new entry, exactly as a
Python dict does. -/
def dictSet (d : Dict) (k v : Str) : Dict :=
  if dictHas d k then d.map (fun p => if p.1 == k then (p.1, v) else p)
  else d ++ [(k, v)]

/-- Dictionary deletion: del d[k]. -/
def dictDel (d : Dict) (k : Str) : Dict := d.filter (fun p => !(p.1 == k))

/-- The list of keys of a dictionary, in insertion order. -/
def dictKeys (d : Dict) : List Str := d.map (fun p => p.1)

/-- Word characters of the regular expression class backslash-w, ASCII
model: letters, digits and the underscore. -/
def isWordChar (c : Char) : Bool := c.isAlphanum || c == '_'

/-- Attempt to match the ADIF specifier regular expression at the head of
the buffer.  On success, returns the tag (group 1), the digits of the
declared length (group 2) and the number of characters from the opening
angle bracket through the closing one, so that group 4 starts right after
that many characters. -/
def specHeaderAt (s : Str) : Option (Str × Str × Nat) :=
  match s with
  | '<' :: rest =>
    let w := rest.takeWhile isWordChar
    if w.isEmpty then none else
    match rest.drop w.length with
    | ':' :: r2 =>
      let d := r2.takeWhile Char.isDigit
      if d.isEmpty then none else
      (match r2.drop d.length with
       | '>' :: _ => some (w, d, w.length + d.length + 3)
       | ':' :: c :: '>' :: _ =>
         if isWordChar c then some (w, d, w.length + d.length + 5) else none
       | _ => none)
    | _ => none
  | _ => none

/-- Leftmost search for the specifier regular expression: the position of
the first match together with its groups, mirroring re.search. -/
def findSpecAux : Str → Nat → Option (Nat × Str × Str × Nat)
  | [], _ => none
  | c :: rest, i =>
    match specHeaderAt (c :: rest) with
    | some (w, d, k) => some (i, w, d, k)
    | none => findSpecAux rest (i + 1)

/-- Search a buffer for the first ADIF specifier. -/
def findSpec (s : Str) : Option (Nat × Str × Str × Nat) := findSpecAux s 0

/-- Numeric value of a digit string, as computed by the Python int
constructor on a string of decimal digits. -/
def digitsVal (ds : Str) : Nat :=
  ds.foldl (fun a c => a * 10 + (c.toNat - 48)) 0

/-- Group 4 of a specifier match: the value text running from the position
after the closing angle bracket up to the next opening angle bracket or the
end of the buffer. -/
def group4 (s : Str) (i k : Nat) : Str :=
  (s.drop (i + k)).takeWhile (fun c => !(c == '<'))

/-- The value stored by the parser for one specifier: group 4 truncated to
the smaller of the declared length and the actual length. -/
def storedVal (s : Str) (i k : Nat) (d : Str) : Str :=
  (group4 s i k).take (min (digitsVal d) (group4 s i k).length)

/-- Case-insensitive test for a marker (given upper-case) at the head of
the buffer. -/
def markerAt (marker : Str) (s : Str) : Bool :=
  pyUpper (s.take marker.length) == marker

/-- Case-insensitive search for a marker; on success returns the index just
past the match, mirroring m.end() of re.search. -/
def searchMarkerAux (marker : Str) : Str → Nat → Option Nat
  | [], _ => none
  | c :: rest, i =>
    if markerAt marker (c :: rest) then some (i + marker.length)
    else searchMarkerAux marker rest (i + 1)

/-- Case-insensitive containment of a marker anywhere in the buffer. -/
def containsMarker (marker : Str) : Str → Bool
  | [] => false
  | c :: rest => markerAt marker (c :: rest) || containsMarker marker rest

/-- Search for the end-of-record marker, returning the index past it. -/
def eorSearch (s : Str) : Option Nat := searchMarkerAux (str "<EOR>") s 0

/-- True when the buffer contains an end-of-record marker. -/
def eorContains (s : Str) : Bool := containsMarker (str "<EOR>") s

/-- Search for the end-of-header marker, returning the index past it. -/
def eohSearch (s : Str) : Option Nat := searchMarkerAux (str "<EOH>") s 0

/-- True when the buffer contains an end-of-header marker. -/
def eohContains (s : Str) : Bool := containsMarker (str "<EOH>") s

/-- State of one adif object: the QSO record, the header record, the
end-of-header flag and the pending line buffer. -/
structure AdifState where
  QSO : Dict
  HEADER : Dict
  EOH : Bool
  line : Str
deriving DecidableEq, Repr

/-- The adif constructor applied to a dictionary. -/
def adifInit (d : Dict) : AdifState := ⟨d, [], false, []⟩

/-- The adif constructor with no argument. -/
def adifEmpty : AdifState := ⟨[], [], false, []⟩

/-- adif.clear: empties the QSO record and the pending line buffer. -/
def clear (st : AdifState) : AdifState := { st with QSO := [], line := [] }

/-- adif.set_field. -/
def set_field (st : AdifState) (field value : Str) : AdifState :=
  { st with QSO := dictSet st.QSO (normKey field) value }

/-- adif.del_field. -/
def del_field (st : AdifState) (field : Str) : AdifState :=
  { st with QSO := dictDel st.QSO (normKey field) }

/-- adif.get_field: empty string when the field is missing. -/
def adifGetField (st : AdifState) (field : Str) : Str :=
  (dictLookup st.QSO (normKey field)).getD []

/-- adif.has_field. -/
def adifHasField (st : AdifState) (field : Str) : Bool :=
  dictHas st.QSO (normKey field)

/-- Mirroring of header-specific tags into the HEADER dictionary performed
inside the parse loop, including the dual write for the ADIF_VERS alias. -/
def headerUpdate (h : Dict) (tag value : Str) : Dict :=
  if tag == str "ADIF_VER" then dictSet h tag value
  else if tag == str "ADIF_VERS" then
    dictSet (dictSet h tag value) (str "ADIF_VER") value
  else if tag == str "CREATED_TIMESTAMP" then dictSet h tag value
  else if tag == str "PROGRAMID" then dictSet h tag value
  else if tag == str "PROGRAMVERSION" then dictSet h tag value
  else if (str "USERDEF").isPrefixOf tag then dictSet h tag value
  else h

/-- The field-scanning while loop of adif.parse: repeatedly finds the next
specifier, stores the clamped value under the upper-cased tag, mirrors
header tags, and truncates the buffer at the position just past the
consumed value.  The fuel argument bounds the number of iterations; each
iteration strictly shortens the buffer. -/
def scanLoop : Nat → Dict → Dict → Str → Dict × Dict × Str
  | 0, q, h, r => (q, h, r)
  | fuel + 1, q, h, r =>
    match findSpec r with
    | none => (q, h, r)
    | some (i, w, d, k) =>
      let tag := pyUpper w
      let value := storedVal r i k d
      scanLoop fuel (dictSet q tag value) (headerUpdate h tag value)
        (r.drop (i + k + value.length))

/-- The buffer remaining after the field-scanning loop, as a function of
the buffer alone. -/
def scanRemainder : Nat → Str → Str
  | 0, r => r
  | fuel + 1, r =>
    match findSpec r with
    | none => r
    | some (i, _, d, k) =>
      scanRemainder fuel (r.drop (i + k + (storedVal r i k d).length))

/-- adif.parse: clears the record when new is true, runs the scanning
loop, reports whether an end-of-record marker remains in the buffer, and
finally clears the record and raises the EOH flag when an end-of-header
marker remains. -/
def parse (st : AdifState) (record : Str) (new : Bool) : Bool × AdifState :=
  let st0 := { st with EOH := false }
  let st1 := if new then clear st0 else st0
  let out := scanLoop (record.length + 1) st1.QSO st1.HEADER record
  let rest := out.2.2
  let eorFound := eorContains rest
  let st2 := { st1 with QSO := out.1, HEADER := out.2.1 }
  let st3 := if eohContains rest then { (clear st2) with EOH := true } else st2
  (eorFound, st3)

/-- Line-ending normalisation done by adif.next_record on each line read
from the file: newline and carriage-return characters become spaces.  The
make_utf8 helper from strutils is modelled as the identity, since the model
works on already-decoded text. -/
def normalizeLine (s : Str) : Str :=
  s.map (fun c => if c == '\n' then ' ' else if c == '\r' then ' ' else c)

/-- The body of the for loop of adif.next_record, consuming lines from the
file until a record is confirmed, followed by the final check on the
leftover buffer.  Returns the result flag, the new state and the lines not
yet consumed from the file. -/
def nrLoop (st : AdifState) (eor : Bool) : List Str → Bool × AdifState × List Str
  | [] =>
    match eorSearch st.line with
    | some idx =>
      let p := parse st st.line eor
      if p.1 then (true, { p.2 with line := p.2.line.drop idx }, [])
      else (false, p.2, [])
    | none => (false, st, [])
  | l :: rest =>
    let stA := { st with line := st.line ++ normalizeLine l }
    let stB :=
      match eohSearch stA.line with
      | some idx =>
        let p := parse stA stA.line true
        (({ p.2 with line := p.2.line.drop idx } : AdifState), false)
      | none => (stA, eor)
    match eorSearch stB.1.line with
    | some idx =>
      let p := parse stB.1 stB.1.line stB.2
      if p.1 then (true, { p.2 with line := p.2.line.drop idx }, rest)
      else nrLoop p.2 p.1 rest
    | none => nrLoop stB.1 stB.2 rest

/-- adif.next_record: first checks the pending line buffer for an
end-of-record marker left over from a previous call, then reads lines from
the file. -/
def next_record (st : AdifState) (file : List Str) : Bool × AdifState × List Str :=
  match eorSearch st.line with
  | some idx =>
    let p := parse st st.line true
    if p.1 then (true, { p.2 with line := p.2.line.drop idx }, file)
    else nrLoop p.2 p.1 file
  | none => nrLoop st true file

/-- Decimal rendering of a natural number, as the Python str constructor. -/
def natToStr (n : Nat) : Str := Nat.toDigits 10 n

/-- Strict lexicographic order on strings by character code, the order the
Python sorted builtin uses on strings. -/
def lexLt : Str → Str → Bool
  | [], [] => false
  | [], _ :: _ => true
  | _ :: _, [] => false
  | a :: as, b :: bs => if a < b then true else if a == b then lexLt as bs else false

/-- Ordered insertion for the sorting of field names. -/
def sortedInsert (x : Str) : List Str → List Str
  | [] => [x]
  | y :: ys => if lexLt x y then x :: y :: ys else y :: sortedInsert x ys

/-- Ascending sort of field names, as the Python sorted builtin. -/
def sortKeys : List Str → List Str
  | [] => []
  | x :: xs => sortedInsert x (sortKeys xs)

/-- Rendering of one field inside adif.get_adif: an opening angle bracket,
the tag, a colon, the decimal length of the value, a closing angle bracket,
the value and a trailing space. -/
def renderField (q : Dict) (k : Str) : Str :=
  '<' :: k ++ ':' :: natToStr ((dictLookup q k).getD []).length
    ++ '>' :: (dictLookup q k).getD [] ++ [' ']

/-- adif.get_adif: accumulates the rendered fields over the sorted field
names and appends the end-of-record marker. -/
def get_adif (st : AdifState) : Str :=
  (sortKeys (dictKeys st.QSO)).foldl (fun acc k => acc ++ renderField st.QSO k) []
    ++ str "<EOR>"

/-- Serialisation written after the specification text: the record fields
sorted by tag name ascending, each rendered as tag, colon, length, value
with a trailing space between angle brackets, concatenated, followed by the
end-of-record marker. -/
def specSerialize (st : AdifState) : Str :=
  ((sortKeys (dictKeys st.QSO)).map (fun k =>
    str "<" ++ k ++ str ":" ++ natToStr ((dictLookup st.QSO k).getD []).length
      ++ str ">" ++ (dictLookup st.QSO k).getD [] ++ str " ")).flatten
    ++ str "<EOR>"

/-- adif.get_field applied to a bare record dictionary, as the merge class
does after wrapping the dictionary in an adif object. -/
def get_field_d (r : Dict) (field : Str) : Str :=
  (dictLookup r (normKey field)).getD []

/-- adif.has_field applied to a bare record dictionary. -/
def has_field_d (r : Dict) (field : Str) : Bool :=
  dictHas r (normKey field)

/-- adifMerge.minimumQso: the record must contain the CALL, BAND, MODE,
QSO_DATE and TIME_ON fields. -/
def minimumQso (r : Dict) : Bool :=
  has_field_d r (str "CALL") && has_field_d r (str "BAND") &&
  has_field_d r (str "MODE") && has_field_d r (str "QSO_DATE") &&
  has_field_d r (str "TIME_ON")

/-- adifMerge.modeMatch: equal primary modes match unless both submodes are
present and differ; a primary mode may also cross-match the other record
submode; two empty primary modes never match. -/
def modeMatch (r1 r2 : Dict) : Bool :=
  let m1 := pyUpper (get_field_d r1 (str "MODE"))
  let m2 := pyUpper (get_field_d r2 (str "MODE"))
  let sm1 := pyUpper (get_field_d r1 (str "SUBMODE"))
  let sm2 := pyUpper (get_field_d r2 (str "SUBMODE"))
  if m1.length == 0 || m2.length == 0 then false
  else if m1 == m2 then
    (if 0 < sm1.length && 0 < sm2.length then sm1 == sm2 else true)
  else if m1 == sm2 then true
  else if m2 == sm1 then true
  else false

/-- The Python slice s[a:b] for natural bounds. -/
def pySlice (s : Str) (a b : Nat) : Str := (s.drop a).take (b - a)

/-- The Python int constructor on a string: optional surrounding
whitespace, an optional sign, then at least one decimal digit; anything
else raises, modelled as none.  ASCII model (underscore separators and
non-ASCII digits are not modelled; the date and time fields of the claims
are plain digit strings). -/
def pyInt (s : Str) : Option Int :=
  match pyStrip s with
  | [] => none
  | '+' :: ds =>
    if ds.isEmpty || !(ds.all Char.isDigit) then none else some (digitsVal ds)
  | '-' :: ds =>
    if ds.isEmpty || !(ds.all Char.isDigit) then none
    else some (-(digitsVal ds : Int))
  | ds => if ds.all Char.isDigit then some (digitsVal ds) else none

/-- Gregorian leap-year test, as the Python datetime module. -/
def isLeap (y : Nat) : Bool := (y % 4 == 0 && y % 100 != 0) || y % 400 == 0

/-- Days in a month of the proleptic Gregorian calendar. -/
def daysInMonth (y m : Nat) : Nat :=
  if m == 2 then (if isLeap y then 29 else 28)
  else if m == 4 || m == 6 || m == 9 || m == 11 then 30
  else 31

/-- Days before the first day of the given year, counting from year 1. -/
def daysBeforeYear (y : Nat) : Nat :=
  365 * (y - 1) + (y - 1) / 4 + (y - 1) / 400 - (y - 1) / 100

/-- Days before the first day of the given month within a year. -/
def daysBeforeMonth (y m : Nat) : Nat :=
  (List.range (m - 1)).foldl (fun a i => a + daysInMonth y (i + 1)) 0

/-- Seconds elapsed from the start of year 1 to the given civil time. -/
def civilSeconds (y mo d h mi s : Nat) : Nat :=
  (daysBeforeYear y + daysBeforeMonth y mo + (d - 1)) * 86400
    + h * 3600 + mi * 60 + s

/-- The datetime constructor: validates every component exactly as the
Python datetime class (year 1 to 9999, month 1 to 12, day within the month,
hour below 24, minute and second below 60) and raises otherwise; on success
the instant is represented by its total seconds from the start of year 1. -/
def mkDatetime (y mo d h mi s : Int) : Option Nat :=
  if 1 ≤ y ∧ y ≤ 9999 ∧ 1 ≤ mo ∧ mo ≤ 12 ∧
     1 ≤ d ∧ d ≤ (daysInMonth y.toNat mo.toNat : Int) ∧
     0 ≤ h ∧ h ≤ 23 ∧ 0 ≤ mi ∧ mi ≤ 59 ∧ 0 ≤ s ∧ s ≤ 59 then
    some (civilSeconds y.toNat mo.toNat d.toNat h.toNat mi.toNat s.toNat)
  else none

/-- The combined date-time a record denotes inside adifMerge.timeMatch:
QSO_DATE sliced as year, month, day, TIME_ON sliced as hour and minute,
with seconds taken from positions four and five when the time field is
longer than four characters and zero otherwise.  none models a raised
ValueError from int or from the datetime constructor. -/
def dtSeconds (r : Dict) : Option Nat := do
  let dd := get_field_d r (str "QSO_DATE")
  let tt := get_field_d r (str "TIME_ON")
  let tsec ← if 4 < tt.length then pyInt (pySlice tt 4 6) else some 0
  let y ← pyInt (pySlice dd 0 4)
  let mo ← pyInt (pySlice dd 4 6)
  let dy ← pyInt (pySlice dd 6 8)
  let hh ← pyInt (pySlice tt 0 2)
  let mi ← pyInt (pySlice tt 2 4)
  mkDatetime y mo dy hh mi tsec

/-- adifMerge.timeMatch with the MaxSeconds threshold as a parameter
(default 900 in the constructor): the records match when the day component
of the normalised absolute time difference is zero and its second component
is at most the threshold. -/
def timeMatchM (maxSeconds : Nat) (r1 r2 : Dict) : Option Bool := do
  let t1 ← dtSeconds r1
  let t2 ← dtSeconds r2
  let td := ((t1 : Int) - (t2 : Int)).natAbs
  some (decide (td / 86400 = 0) && decide (td % 86400 ≤ maxSeconds))

/-- adifMerge.match: minimum viability of both records, then equality of
call and band ignoring case, mode compatibility and the time window.  none
models an exception escaping from timeMatch. -/
def matchM (maxSeconds : Nat) (r1 r2 : Dict) : Option Bool :=
  if !(minimumQso r1) then some false
  else if !(minimumQso r2) then some false
  else if pyUpper (get_field_d r1 (str "CALL")) == pyUpper (get_field_d r2 (str "CALL")) then
    if pyUpper (get_field_d r1 (str "BAND")) == pyUpper (get_field_d r2 (str "BAND")) then
      if modeMatch r1 r2 then timeMatchM maxSeconds r1 r2
      else some false
    else some false
  else some false

/-- The for loop of adifMerge.merge over the snapshot of the source field
names: a field absent from the destination is added (marking the record
modified); a present field is overwritten only when update_fields is true
and the values differ. -/
def mergeLoop (upd : Bool) (fromD : Dict) : List Str → Dict → Bool → Dict × Bool
  | [], into, m => (into, m)
  | f :: fs, into, m =>
    let dataFrom := get_field_d fromD f
    if !(has_field_d into f) then
      mergeLoop upd fromD fs (dictSet into (normKey f) dataFrom) true
    else if upd then
      (if dataFrom != get_field_d into f then
        mergeLoop upd fromD fs (dictSet into (normKey f) dataFrom) true
      else mergeLoop upd fromD fs into m)
    else mergeLoop upd fromD fs into m

/-- adifMerge.merge on record values: the sanity checks return a false
flag with an empty record, a raised exception inside match propagates, and
otherwise the merge loop runs and the mutated destination record is
returned together with the modified flag. -/
def mergeM (maxSeconds : Nat) (fromD intoD : Dict) (upd : Bool) :
    Option (Bool × Dict) :=
  if !(minimumQso fromD) then some (false, [])
  else if !(minimumQso intoD) then some (false, [])
  else
    match matchM maxSeconds fromD intoD with
    | none => none
    | some false => some (false, [])
    | some true =>
      let out := mergeLoop upd fromD (dictKeys fromD) intoD false
      some (out.2, out.1)

/-- A heap of record dictionaries, modelling Python object identity: a
record object is a natural-number reference into the heap. -/
abbrev Heap := List Dict

/-- Dereference a record object; an out-of-range reference denotes a fresh
empty dictionary. -/
def heapGet (h : Heap) (r : Nat) : Dict := h.getD r []

/-- adif.set_field through a reference: mutates the referenced dictionary
in place on the heap. -/
def heapSetField (h : Heap) (r : Nat) (f v : Str) : Heap :=
  h.set r (dictSet (heapGet h r) (normKey f) v)

/-- The merge loop acting on the heap: the adif wrappers alias the two
argument dictionaries, so every read and write goes through the
references. -/
def mergeLoopH (upd : Bool) (rf ri : Nat) : List Str → Heap → Bool → Heap × Bool
  | [], h, m => (h, m)
  | f :: fs, h, m =>
    let dataFrom := get_field_d (heapGet h rf) f
    if !(has_field_d (heapGet h ri) f) then
      mergeLoopH upd rf ri fs (heapSetField h ri f dataFrom) true
    else if upd then
      (if dataFrom != get_field_d (heapGet h ri) f then
        mergeLoopH upd rf ri fs (heapSetField h ri f dataFrom) true
      else mergeLoopH upd rf ri fs h m)
    else mergeLoopH upd rf ri fs h m

/-- adifMerge.merge on the heap: returns the modified flag and the
reference of the returned merged_record dictionary, together with the heap
after the call.  When a sanity check fails the code returns a fresh empty
dictionary, modelled as the out-of-range reference at the heap length. -/
def mergeH (maxSeconds : Nat) (h : Heap) (rf ri : Nat) (upd : Bool) :
    Option ((Bool × Nat) × Heap) :=
  if !(minimumQso (heapGet h rf)) then some ((false, h.length), h)
  else if !(minimumQso (heapGet h ri)) then some ((false, h.length), h)
  else
    match matchM maxSeconds (heapGet h rf) (heapGet h ri) with
    | none => none
    | some false => some ((false, h.length), h)
    | some true =>
      let out := mergeLoopH upd rf ri (dictKeys (heapGet h rf)) h false
      some ((out.2, ri), out.1)

/-- adif_iter.next_qso, with the outcome of the underlying
adif.next_record call abstracted as an Except value: an error value models
an exception raised by the reader, which the method catches, reporting a
false status and the current partial record.  When the file is not open the
method reports a false status with an empty record. -/
def next_qso (fileOpen : Bool) (res : Except Str Bool) (rec : Dict) :
    Dict × Bool × Str :=
  if fileOpen then
    match res with
    | .ok status => (if status then rec else [], status, [])
    | .error e => (rec, false, e)
  else ([], false, [])

/-- The step of the adif_iter iterator: some record to yield it, none for
StopIteration (after which the file is closed). -/
def iterStep (fileOpen : Bool) (res : Except Str Bool) (rec : Dict) :
    Option Dict :=
  let out := next_qso fileOpen res rec
  if out.2.1 then (if 0 < out.1.length then some out.1 else none) else none

/-- A viable record logged just before midnight. -/
def rMid1 : Dict :=
  [(str "CALL", str "W1AW"), (str "BAND", str "20M"), (str "MODE", str "CW"),
   (str "QSO_DATE", str "20230101"), (str "TIME_ON", str "235930")]

/-- A viable record logged just after the following midnight, sixty seconds
after rMid1. -/
def rMid2 : Dict :=
  [(str "CALL", str "W1AW"), (str "BAND", str "20M"), (str "MODE", str "CW"),
   (str "QSO_DATE", str "20230102"), (str "TIME_ON", str "000030")]

/-- A viable record at 23:50:00. -/
def rTw1 : Dict :=
  [(str "CALL", str "W1AW"), (str "BAND", str "20M"), (str "MODE", str "CW"),
   (str "QSO_DATE", str "20230101"), (str "TIME_ON", str "235000")]

/-- A viable record at 23:59:00 of the same day, 540 seconds after rTw1. -/
def rTw2 : Dict :=
  [(str "CALL", str "W1AW"), (str "BAND", str "20M"), (str "MODE", str "CW"),
   (str "QSO_DATE", str "20230101"), (str "TIME_ON", str "235900")]

/-- A record that passes minimum viability but has an empty TIME_ON value. -/
def rBad : Dict :=
  [(str "CALL", str "X"), (str "BAND", str "20M"), (str "MODE", str "CW"),
   (str "QSO_DATE", str "20230101"), (str "TIME_ON", str "")]

/-- A record missing the CALL field, hence not minimally viable. -/
def rNoCall : Dict :=
  [(str "BAND", str "20M"), (str "MODE", str "CW"),
   (str "QSO_DATE", str "20230101"), (str "TIME_ON", str "1200")]

/-- A viable destination record carrying NOTES = old. -/
def destW : Dict :=
  [(str "CALL", str "W1AW"), (str "BAND", str "20M"), (str "MODE", str "CW"),
   (str "QSO_DATE", str "20230101"), (str "TIME_ON", str "1200"),
   (str "NOTES", str "old")]

/-- A viable source record matching destW, carrying NOTES = new and the
extra field RST_SENT = 599. -/
def srcW : Dict :=
  [(str "CALL", str "W1AW"), (str "BAND", str "20M"), (str "MODE", str "CW"),
   (str "QSO_DATE", str "20230101"), (str "TIME_ON", str "1200"),
   (str "NOTES", str "new"), (str "RST_SENT", str "599")]

end Adif

namespace Adif

theorem scanLoop_rest (n : Nat) : ∀ (q h : Dict) (r : Str),
    (scanLoop n q h r).2.2 = scanRemainder n r := by
  induction n with
  | zero => intro q h r; rfl
  | succ n ih =>
    intro q h r
    simp only [scanLoop, scanRemainder]
    cases hf : findSpec r with
    | none => rfl
    | some x =>
      obtain ⟨i, w, d, k⟩ := x
      exact ih _ _ _

theorem scanRemainder_suffix (n : Nat) : ∀ (r : Str), scanRemainder n r <:+ r := by
  induction n with
  | zero => intro r; exact List.suffix_refl r
  | succ n ih =>
    intro r
    simp only [scanRemainder]
    cases hf : findSpec r with
    | none => exact List.suffix_refl r
    | some x =>
      obtain ⟨i, w, d, k⟩ := x
      exact (ih _).trans (List.drop_suffix _ r)

theorem containsMarker_append (m : Str) : ∀ (p l : Str),
    containsMarker m l = true → containsMarker m (p ++ l) = true := by
  intro p
  induction p with
  | nil => intro l h; simpa using h
  | cons c p ih =>
    intro l h
    simp only [List.cons_append, containsMarker, Bool.or_eq_true]
    exact Or.inr (ih l h)

theorem parse_fst (st : AdifState) (buf : Str) (new : Bool) :
    (parse st buf new).1 = eorContains (scanRemainder (buf.length + 1) buf) := by
  simp only [parse]
  rw [scanLoop_rest]

/-- C3 (confirmed): for every input buffer and every value of the reset
flag, parse returns true exactly when a case-insensitive end-of-record
marker is present in the buffer remaining after field scanning; a buffer
containing no such marker at all yields false; and parsing the well-formed
record A = xyz, B = q followed by the marker populates both fields and
returns true. -/
theorem parse_eor_presence :
    (∀ (st : AdifState) (buf : Str) (new : Bool),
      (parse st buf new).1 = eorContains (scanRemainder (buf.length + 1) buf))
    ∧ (∀ (st : AdifState) (buf : Str) (new : Bool),
      eorContains buf = false → (parse st buf new).1 = false)
    ∧ parse adifEmpty (str "<A:3>xyz<B:1>q<EOR>") true =
        (true, ⟨[(str "A", str "xyz"), (str "B", str "q")], [], false, []⟩) := by
  refine ⟨fun st buf new => parse_fst st buf new, ?_, by rfl⟩
  intro st buf new h
  rw [parse_fst]
  obtain ⟨p, hp⟩ := scanRemainder_suffix (buf.length + 1) buf
  cases hrem : eorContains (scanRemainder (buf.length + 1) buf) with
  | false => rfl
  | true =>
    have hb := containsMarker_append (str "<EOR>") p _ hrem
    rw [hp] at hb
    rw [eorContains] at h
    rw [h] at hb
    exact absurd hb (by simp)

/-- C3 witness: the second conjunct applied to a concrete buffer with no
end-of-record marker. -/
theorem parse_eor_presence_witness :
    (parse adifEmpty (str "<A:2>hi") true).1 = false :=
  parse_eor_presence.2.1 adifEmpty (str "<A:2>hi") true (by rfl)

/-- C2 (confirmed): whenever the declared length of a scanned specifier
exceeds the text actually available before the next opening angle bracket,
the stored value is the whole available text (clamped), and parsing the
concrete buffer declaring length ten over the two characters ab stores
A = ab and still succeeds with the end-of-record marker. -/
theorem scan_clamps_declared_length :
    (∀ (s : Str) (i : Nat) (w d : Str) (k : Nat),
      findSpec s = some (i, w, d, k) →
      (group4 s i k).length < digitsVal d →
      storedVal s i k d = group4 s i k)
    ∧ parse adifEmpty (str "<A:10>ab<EOR>") true =
        (true, ⟨[(str "A", str "ab")], [], false, []⟩) := by
  constructor
  · intro s i w d k _ hlt
    rw [storedVal, Nat.min_eq_right (Nat.le_of_lt hlt), List.take_length]
  · rfl

/-- C2 witness: the clamping conjunct applied to the concrete buffer, whose
first specifier declares length ten over two available characters. -/
theorem scan_clamps_declared_length_witness :
    storedVal (str "<A:10>ab<EOR>") 0 6 (str "10") =
      group4 (str "<A:10>ab<EOR>") 0 6 :=
  scan_clamps_declared_length.1 (str "<A:10>ab<EOR>") 0 (str "A") (str "10") 6
    (by rfl) (by decide)

theorem foldl_append_flatten (f : Str → Str) : ∀ (l : List Str) (a : Str),
    l.foldl (fun acc k => acc ++ f k) a = a ++ (l.map f).flatten := by
  intro l
  induction l with
  | nil => intro a; simp
  | cons x xs ih => intro a; simp [ih, List.append_assoc]

/-- C5 (confirmed): get_adif renders the record as its fields sorted
ascending by tag name, each field as the tag, a colon, the decimal value
length, the value and a trailing space between angle brackets, concatenated
and followed by the end-of-record marker; parsing a record with fields
CALL = W1AW and BAND = 20m and re-serialising it yields exactly the
alphabetically ordered output. -/
theorem get_adif_sorted_render :
    (∀ st : AdifState, get_adif st = specSerialize st)
    ∧ get_adif (parse adifEmpty (str "<CALL:4>W1AW <BAND:3>20m <EOR>") true).2 =
        str "<BAND:3>20m <CALL:4>W1AW <EOR>" := by
  constructor
  · intro st
    rw [get_adif, specSerialize, foldl_append_flatten (renderField st.QSO)]
    simp only [List.nil_append]
    congr 2
    apply List.map_congr_left
    intro k _
    simp [renderField, str, List.append_assoc]
  · rfl

/-- C1 counterexample: 23:59:30 and 00:00:30 of the next day are sixty
seconds apart yet timeMatch accepts them (and so does the full match) under
the default 900 second threshold, because the day component of a normalised
sixty-second timedelta is zero; the claim asserts this pair is rejected for
carrying a nonzero day difference. -/
theorem timeMatch_midnight_accepted :
    timeMatchM 900 rMid1 rMid2 = some true ∧ matchM 900 rMid1 rMid2 = some true :=
  ⟨by rfl, by rfl⟩

/-- C1 (corrected): for records whose date and time fields determine valid
combined date-times, timeMatch returns true exactly when the absolute
difference is below one full day of 86400 seconds and at most the
MaxSeconds threshold; the day component of the normalised duration is zero
for any difference under 24 hours regardless of calendar-day boundaries, so
a near-midnight pair under the threshold is accepted, not rejected. -/
theorem timeMatch_day_and_seconds (ms : Nat) (r1 r2 : Dict) (t1 t2 : Nat)
    (h1 : dtSeconds r1 = some t1) (h2 : dtSeconds r2 = some t2) :
    timeMatchM ms r1 r2 =
      some (decide (((t1 : Int) - t2).natAbs < 86400 ∧
        ((t1 : Int) - t2).natAbs ≤ ms)) := by
  have key : ∀ td : Nat,
      (decide (td / 86400 = 0) && decide (td % 86400 ≤ ms)) =
        decide (td < 86400 ∧ td ≤ ms) := by
    intro td
    by_cases hd : td / 86400 = 0 <;> by_cases hm : td % 86400 ≤ ms <;>
      simp [hd, hm] <;> omega
  simp only [timeMatchM, h1, h2, Option.bind_eq_bind, Option.some_bind]
  exact congrArg some (key _)

/-- C1 witness: two records of the same day 540 seconds apart satisfy the
hypotheses with concrete combined date-times, and the amended statement
evaluates to a successful match. -/
theorem timeMatch_day_and_seconds_witness :
    timeMatchM 900 rTw1 rTw2 = some true := by
  have h := timeMatch_day_and_seconds 900 rTw1 rTw2 63808213800 63808214340
    (by rfl) (by rfl)
  rw [h]
  rfl

/-- C7 counterexample: a record passing minimum viability whose TIME_ON
value is the empty string makes match raise a ValueError (modelled as none)
from the int conversion inside timeMatch, rather than return a negative
result; the claim asserts no input produces a thrown error. -/
theorem match_raises_on_empty_time : matchM 900 rBad rBad = none := by rfl

/-- C7 (corrected): a record missing any minimum-viability field makes
match return false and merge return a false flag with an empty record,
without error; however present-but-malformed date or time values in records
that pass viability can make match and merge raise instead (see the
counterexample). -/
theorem match_merge_viability_negative (ms : Nat) (r1 r2 : Dict) (upd : Bool)
    (h : minimumQso r1 = false ∨ minimumQso r2 = false) :
    matchM ms r1 r2 = some false ∧ mergeM ms r1 r2 upd = some (false, []) := by
  rcases h with h | h
  · constructor
    · simp [matchM, h]
    · simp [mergeM, h]
  · constructor
    · by_cases h1 : minimumQso r1 <;> simp [matchM, h1, h]
    · by_cases h1 : minimumQso r1 <;> simp [mergeM, matchM, h1, h]

/-- C7 witness: the amended statement applied to a concrete record missing
the CALL field. -/
theorem match_merge_viability_negative_witness :
    matchM 900 rNoCall rNoCall = some false ∧
      mergeM 900 rNoCall rNoCall true = some (false, []) :=
  match_merge_viability_negative 900 rNoCall rNoCall true (Or.inl (by rfl))

theorem parse_true_line_nil (st : AdifState) (l : Str) :
    ((parse st l true).2).line = [] := by
  simp only [parse, clear, if_true]
  split <;> rfl

/-- C4 counterexample: a pending buffer holding a complete record followed
by a second complete record.  The claim asserts next_record removes only
the matched prefix through the first end-of-record marker, which would
leave the second record in the buffer; instead the call returns with an
empty pending buffer, the second record having been absorbed into the
returned fields. -/
theorem next_record_pending_cx :
    next_record ⟨[], [], false, str "<A:1>x<EOR><C:1>z<EOR>"⟩ [] =
      (true, ⟨[(str "A", str "x"), (str "C", str "z")], [], false, []⟩, []) := by
  rfl

/-- C4 (corrected): when the pending buffer already contains an
end-of-record marker, next_record parses the entire buffer immediately
with a reset and, provided the parse confirms a terminator, returns true
without reading anything from the stream; the reset inside parse empties
the line buffer, so the pending buffer is left empty rather than truncated
to the text after the matched marker. -/
theorem next_record_pending_confirmed (st : AdifState) (file : List Str) (idx : Nat)
    (hs : eorSearch st.line = some idx)
    (hp : (parse st st.line true).1 = true) :
    next_record st file =
      (true, { (parse st st.line true).2 with line := [] }, file) := by
  simp only [next_record, hs]
  rw [hp]
  simp only [if_true, parse_true_line_nil, List.drop_nil]

/-- C4 witness: a pending buffer holding exactly one confirmed record is
returned immediately with the stream untouched. -/
theorem next_record_pending_confirmed_witness :
    next_record ⟨[], [], false, str "<B:1>y<EOR>"⟩ [str "<C:1>c"] =
      (true,
        { (parse ⟨[], [], false, str "<B:1>y<EOR>"⟩ (str "<B:1>y<EOR>") true).2
            with line := [] },
        [str "<C:1>c"]) :=
  next_record_pending_confirmed ⟨[], [], false, str "<B:1>y<EOR>"⟩
    [str "<C:1>c"] 11 (by rfl) (by rfl)

set_option maxHeartbeats 1000000 in
theorem upChar_idem (c : Char) : upChar (upChar c) = upChar c := by
  unfold upChar
  split <;> first | rfl | (rename_i heq; revert heq; split <;> simp_all)

theorem isPySpace_upChar (c : Char) : isPySpace (upChar c) = isPySpace c := by
  unfold upChar
  split <;> rfl

theorem isPySpace_not_word (c : Char) (h : isPySpace c = true) :
    isWordChar c = false := by
  simp only [isPySpace, Bool.or_eq_true, beq_iff_eq] at h
  casesm* _ ∨ _ <;> subst_vars <;> rfl

theorem isWordChar_not_space (c : Char) (h : isWordChar c = true) :
    isPySpace c = false := by
  cases hs : isPySpace c
  · rfl
  · rw [isPySpace_not_word c hs] at h
    exact absurd h (by simp)

theorem dropWhile_map_upChar (x : Str) :
    (x.map upChar).dropWhile isPySpace = (x.dropWhile isPySpace).map upChar := by
  induction x with
  | nil => rfl
  | cons c t ih =>
    simp only [List.map_cons, List.dropWhile_cons, isPySpace_upChar]
    cases hc : isPySpace c <;> simp [hc, ih]

theorem dropWhile_rev_strip (p : Char → Bool) (u : Str)
    (hu : u.dropWhile p = u) :
    ((u.reverse.dropWhile p).reverse).dropWhile p =
      (u.reverse.dropWhile p).reverse := by
  rcases hr : (u.reverse.dropWhile p).reverse with _ | ⟨c, t⟩
  · rfl
  · obtain ⟨q, hq⟩ := List.dropWhile_suffix (l := u.reverse) p
    have hu2 : u = c :: (t ++ q.reverse) := by
      have h2 := congrArg List.reverse hq
      rw [List.reverse_append, List.reverse_reverse, hr] at h2
      rw [← h2, List.cons_append]
    have hpc : p c = false := by
      cases hb : p c
      · rfl
      · exfalso
        have h3 := hu
        rw [hu2, List.dropWhile_cons, hb, if_pos rfl] at h3
        have hlen := congrArg List.length h3
        have hle := (List.dropWhile_suffix (l := t ++ q.reverse) p).length_le
        simp only [List.length_cons] at hlen
        omega
    rw [List.dropWhile_cons, hpc]
    simp

theorem pyStrip_idem (s : Str) : pyStrip (pyStrip s) = pyStrip s := by
  unfold pyStrip
  rw [dropWhile_rev_strip isPySpace (s.dropWhile isPySpace)
      (List.dropWhile_idempotent _ _),
    List.reverse_reverse, List.dropWhile_idempotent]

theorem pyStrip_pyUpper (l : Str) : pyStrip (pyUpper l) = pyUpper (pyStrip l) := by
  simp only [pyStrip, pyUpper]
  rw [dropWhile_map_upChar, ← List.map_reverse, dropWhile_map_upChar,
    ← List.map_reverse]

theorem pyUpper_idem (l : Str) : pyUpper (pyUpper l) = pyUpper l := by
  rw [pyUpper, pyUpper, List.map_map]
  exact List.map_congr_left (fun a _ => upChar_idem a)

theorem normKey_idem (s : Str) : normKey (normKey s) = normKey s := by
  unfold normKey
  rw [pyStrip_pyUpper, pyStrip_idem, pyUpper_idem]

theorem pyStrip_eq_self (l : Str) (h : ∀ c ∈ l, isPySpace c = false) :
    pyStrip l = l := by
  unfold pyStrip
  have h1 : l.dropWhile isPySpace = l := by
    cases l with
    | nil => rfl
    | cons c t =>
      rw [List.dropWhile_cons, h c (by simp)]
      simp
  rw [h1]
  have h2 : l.reverse.dropWhile isPySpace = l.reverse := by
    cases hr : l.reverse with
    | nil => rfl
    | cons c t =>
      have hc : c ∈ l := by
        have hm : c ∈ l.reverse := by rw [hr]; simp
        simpa using hm
      rw [List.dropWhile_cons, h c hc]
      simp
  rw [h2, List.reverse_reverse]

theorem tag_goodKey (w : Str) (hne : w ≠ [])
    (hall : ∀ c ∈ w, isWordChar c = true) :
    pyUpper w ≠ [] ∧ normKey (pyUpper w) = pyUpper w := by
  constructor
  · simpa [pyUpper] using hne
  · unfold normKey
    rw [pyStrip_pyUpper,
      pyStrip_eq_self w (fun c hc => isWordChar_not_space c (hall c hc)),
      pyUpper_idem]

theorem dictKeys_dictSet (d : Dict) (k v x : Str)
    (hx : x ∈ dictKeys (dictSet d k v)) : x ∈ dictKeys d ∨ x = k := by
  unfold dictSet at hx
  split at hx
  · left
    unfold dictKeys at hx ⊢
    rw [List.map_map] at hx
    have hfun : ∀ pr : Str × Str,
        ((fun p : Str × Str => p.1) ∘
          fun p : Str × Str => if p.1 == k then (p.1, v) else p) pr = pr.1 := by
      intro pr
      simp only [Function.comp_apply]
      split <;> rfl
    rw [List.map_congr_left (fun a _ => hfun a)] at hx
    exact hx
  · unfold dictKeys at hx ⊢
    rw [List.map_append] at hx
    rcases List.mem_append.mp hx with h | h
    · exact Or.inl h
    · right
      simpa using h

theorem specHeaderAt_tag (s w d : Str) (k : Nat)
    (h : specHeaderAt s = some (w, d, k)) :
    w ≠ [] ∧ ∀ c ∈ w, isWordChar c = true := by
  unfold specHeaderAt at h
  split at h
  · rename_i rest
    by_cases he : (rest.takeWhile isWordChar).isEmpty
    · rw [if_pos he] at h
      cases h
    · rw [if_neg he] at h
      have hgoal : ∀ w0 : Str, w0 = rest.takeWhile isWordChar →
          w0 ≠ [] ∧ ∀ c ∈ w0, isWordChar c = true := by
        intro w0 hw0
        subst hw0
        refine ⟨by simpa [List.isEmpty_iff] using he, ?_⟩
        intro c hc
        exact List.mem_takeWhile_imp hc
      split at h
      · simp only [] at h
        split at h
        · cases h
        · split at h
          · injection h with h1
            injection h1 with hw h2
            exact hgoal w hw.symm
          · split at h
            · injection h with h1
              injection h1 with hw h2
              exact hgoal w hw.symm
            · cases h
          · cases h
      · cases h
  · cases h

theorem findSpecAux_tag (s : Str) : ∀ (j i : Nat) (w d : Str) (k : Nat),
    findSpecAux s j = some (i, w, d, k) →
    w ≠ [] ∧ ∀ c ∈ w, isWordChar c = true := by
  induction s with
  | nil =>
    intro j i w d k h
    exact absurd h (by simp [findSpecAux])
  | cons c rest ih =>
    intro j i w d k h
    rw [findSpecAux] at h
    cases hs : specHeaderAt (c :: rest) with
    | none =>
      rw [hs] at h
      exact ih _ _ _ _ _ h
    | some m =>
      rw [hs] at h
      obtain ⟨w', d', k'⟩ := m
      injection h with h1
      injection h1 with _ h2
      injection h2 with hw h3
      subst hw
      exact specHeaderAt_tag _ _ _ _ hs

theorem findSpec_tag (s : Str) (i : Nat) (w d : Str) (k : Nat)
    (h : findSpec s = some (i, w, d, k)) :
    w ≠ [] ∧ ∀ c ∈ w, isWordChar c = true :=
  findSpecAux_tag s 0 i w d k h

theorem scanLoop_keys (n : Nat) : ∀ (q h : Dict) (r x : Str),
    x ∈ dictKeys (scanLoop n q h r).1 →
    x ∈ dictKeys q ∨ (x ≠ [] ∧ normKey x = x) := by
  induction n with
  | zero =>
    intro q h r x hx
    exact Or.inl hx
  | succ n ih =>
    intro q h r x hx
    rw [scanLoop] at hx
    cases hf : findSpec r with
    | none =>
      rw [hf] at hx
      exact Or.inl hx
    | some m =>
      rw [hf] at hx
      obtain ⟨i, w, d, k⟩ := m
      rcases ih _ _ _ _ hx with hq | hgood
      · rcases dictKeys_dictSet _ _ _ _ hq with h1 | h2
        · exact Or.inl h1
        · right
          subst h2
          obtain ⟨hne, hall⟩ := findSpec_tag _ _ _ _ _ hf
          exact tag_goodKey w hne hall
      · exact Or.inr hgood

/-- C8 counterexample: set_field called with a whitespace-only field name
stores the empty string as a key, so the claimed non-emptiness of every
stored key fails for this argument. -/
theorem set_field_blank_stores_empty_key :
    dictKeys (set_field adifEmpty (str "   ") (str "v")).QSO = [[]] := by
  rfl

/-- C8 (corrected): the record operations normalise field names: set_field
stores only keys of the form normKey applied to its argument,
normalisation is idempotent so re-normalising a stored key changes
nothing, del_field introduces no keys, and parse stores only non-empty
normalised tags; however non-emptiness is not preserved by set_field for
every argument, since a whitespace-only name normalises to the empty key
(see the counterexample). -/
theorem record_keys_normalized :
    (∀ (st : AdifState) (f v x : Str),
      x ∈ dictKeys (set_field st f v).QSO → x ∈ dictKeys st.QSO ∨ x = normKey f)
    ∧ (∀ f : Str, normKey (normKey f) = normKey f)
    ∧ (∀ (st : AdifState) (f x : Str),
      x ∈ dictKeys (del_field st f).QSO → x ∈ dictKeys st.QSO)
    ∧ (∀ (st : AdifState) (buf : Str) (new : Bool) (x : Str),
      x ∈ dictKeys ((parse st buf new).2).QSO →
      x ∈ dictKeys st.QSO ∨ (x ≠ [] ∧ normKey x = x)) := by
  refine ⟨?_, normKey_idem, ?_, ?_⟩
  · intro st f v x hx
    exact dictKeys_dictSet _ _ _ _ hx
  · intro st f x hx
    simp only [del_field, dictDel, dictKeys, List.mem_map] at hx ⊢
    obtain ⟨p, hp, hpx⟩ := hx
    exact ⟨p, (List.mem_filter.mp hp).1, hpx⟩
  · intro st buf new x hx
    simp only [parse] at hx
    split at hx
    · split at hx
      · simp [clear, dictKeys] at hx
      · rcases scanLoop_keys _ _ _ _ _ hx with h1 | h2
        · simp [clear, dictKeys] at h1
        · exact Or.inr h2
    · split at hx
      · simp [clear, dictKeys] at hx
      · rcases scanLoop_keys _ _ _ _ _ hx with h1 | h2
        · exact Or.inl h1
        · exact Or.inr h2

/-- C8 witness: the set_field conjunct applied to a lower-case field name
on the empty record. -/
theorem record_keys_normalized_witness :
    str "CALL" ∈ dictKeys adifEmpty.QSO ∨ str "CALL" = normKey (str "call") :=
  record_keys_normalized.1 adifEmpty (str "call") (str "x") (str "CALL")
    (by decide)

/-- C9 (confirmed): at every iteration step, an error from the underlying
next_record call is swallowed and turned into end of sequence, a false
status likewise ends the sequence, and a true status with an empty record
also ends it; only a true status with a non-empty record yields that
record. -/
theorem iter_error_to_stop (fileOpen : Bool) (res : Except Str Bool) (rec : Dict) :
    (∀ e, res = Except.error e → iterStep fileOpen res rec = none)
    ∧ (res = Except.ok false → iterStep fileOpen res rec = none)
    ∧ (res = Except.ok true → rec = [] → iterStep fileOpen res rec = none)
    ∧ (fileOpen = true → res = Except.ok true → rec ≠ [] →
        iterStep fileOpen res rec = some rec) := by
  refine ⟨?_, ?_, ?_, ?_⟩
  · intro e he
    subst he
    cases fileOpen <;> rfl
  · intro he
    subst he
    cases fileOpen <;> rfl
  · intro he hrec
    subst he
    subst hrec
    cases fileOpen <;> rfl
  · intro ho he hrec
    subst ho
    subst he
    simp [iterStep, next_qso, List.length_pos, hrec]

/-- C9 witness: the error conjunct applied to a concrete read failure with
a partially accumulated record. -/
theorem iter_error_to_stop_witness :
    iterStep true (Except.error (str "read failure"))
      [(str "CALL", str "W1AW")] = none :=
  (iter_error_to_stop true (Except.error (str "read failure"))
    [(str "CALL", str "W1AW")]).1 (str "read failure") rfl

theorem dictHas_false_find? (d : Dict) (k : Str) (h : dictHas d k = false) :
    d.find? (fun p => p.1 == k) = none := by
  rw [List.find?_eq_none]
  intro p hp hb
  have ht : dictHas d k = true := by
    unfold dictHas
    rw [List.any_eq_true]
    exact ⟨p, hp, hb⟩
  rw [ht] at h
  cases h

theorem dictLookup_append_left (d e : Dict) (k : Str)
    (h : dictHas d k = true) :
    dictLookup (d ++ e) k = dictLookup d k := by
  unfold dictLookup
  rw [List.find?_append]
  have hs : (d.find? (fun p => p.1 == k)).isSome := by
    unfold dictHas at h
    rw [List.any_eq_true] at h
    obtain ⟨p, hp, hb⟩ := h
    rw [List.find?_isSome]
    exact ⟨p, hp, hb⟩
  obtain ⟨v, hv⟩ := Option.isSome_iff_exists.mp hs
  rw [hv]
  rfl

theorem dictLookup_append_self (d : Dict) (k v : Str)
    (h : dictHas d k = false) :
    dictLookup (d ++ [(k, v)]) k = some v := by
  unfold dictLookup
  rw [List.find?_append, dictHas_false_find? d k h]
  simp

theorem dictHas_append_single (d : Dict) (k v x : Str) :
    dictHas (d ++ [(k, v)]) x = (dictHas d x || k == x) := by
  simp [dictHas, List.any_append]

theorem dictSet_fresh (d : Dict) (k v : Str) (h : dictHas d k = false) :
    dictSet d k v = d ++ [(k, v)] := by
  unfold dictSet
  rw [if_neg]
  simp [h]

theorem mergeLoop_preserve (fromD : Dict) : ∀ (fs : List Str) (into : Dict)
    (m : Bool) (k : Str), dictHas into k = true →
    dictLookup (mergeLoop false fromD fs into m).1 k = dictLookup into k ∧
      dictHas (mergeLoop false fromD fs into m).1 k = true := by
  intro fs
  induction fs with
  | nil =>
    intro into m k hk
    exact ⟨rfl, hk⟩
  | cons f fs ih =>
    intro into m k hk
    rw [mergeLoop]
    cases hf : has_field_d into f
    · simp only [hf, Bool.not_false, if_true]
      rw [dictSet_fresh into (normKey f) _ hf]
      have hk' : dictHas (into ++ [(normKey f, get_field_d fromD f)]) k = true := by
        rw [dictHas_append_single]
        simp [hk]
      obtain ⟨ha, hb⟩ := ih (into ++ [(normKey f, get_field_d fromD f)]) true k hk'
      exact ⟨ha.trans (dictLookup_append_left _ _ _ hk), hb⟩
    · simp only [hf, Bool.not_true, if_false]
      exact ih into m k hk

theorem mergeLoop_adds (fromD : Dict) : ∀ (fs : List Str) (into : Dict)
    (m : Bool) (k : Str), (∀ x ∈ fs, normKey x = x) → fs.Nodup → k ∈ fs →
    dictHas into k = false →
    dictLookup (mergeLoop false fromD fs into m).1 k =
      some (get_field_d fromD k) := by
  intro fs
  induction fs with
  | nil =>
    intro into m k _ _ hk _
    cases hk
  | cons f fs ih =>
    intro into m k hnorm hnd hk hno
    rw [mergeLoop]
    rcases List.mem_cons.mp hk with hkf | hkfs
    · subst hkf
      have hf : has_field_d into k = false := by
        unfold has_field_d
        rw [hnorm k (by simp)]
        exact hno
      simp only [hf, Bool.not_false, if_true]
      rw [dictSet_fresh into (normKey k) _ hf, hnorm k (by simp)]
      have hk' : dictHas (into ++ [(k, get_field_d fromD k)]) k = true := by
        rw [dictHas_append_single]
        simp
      obtain ⟨ha, -⟩ :=
        mergeLoop_preserve fromD fs (into ++ [(k, get_field_d fromD k)]) true k hk'
      rw [ha, dictLookup_append_self into k _ hno]
    · have hkf : k ≠ f := by
        intro he
        subst he
        exact (List.nodup_cons.mp hnd).1 hkfs
      cases hf : has_field_d into f
      · simp only [hf, Bool.not_false, if_true]
        rw [dictSet_fresh into (normKey f) _ hf, hnorm f (by simp)]
        refine ih _ true k (fun x hx => hnorm x (by simp [hx]))
          (List.nodup_cons.mp hnd).2 hkfs ?_
        rw [dictHas_append_single]
        simp only [hno, Bool.false_or, beq_eq_false_iff_ne]
        exact Ne.symm hkf
      · simp only [hf, Bool.not_true, if_false]
        exact ih into m k (fun x hx => hnorm x (by simp [hx]))
          (List.nodup_cons.mp hnd).2 hkfs hno

theorem mergeLoop_modified (fromD : Dict) : ∀ (fs : List Str) (into : Dict)
    (m : Bool), (∀ x ∈ fs, normKey x = x) →
    ((mergeLoop false fromD fs into m).2 = true ↔
      m = true ∨ ∃ x ∈ fs, dictHas into x = false) := by
  intro fs
  induction fs with
  | nil =>
    intro into m _
    simp [mergeLoop]
  | cons f fs ih =>
    intro into m hnorm
    rw [mergeLoop]
    have hfd : has_field_d into f = dictHas into f := by
      unfold has_field_d
      rw [hnorm f (by simp)]
    cases hf : has_field_d into f
    · simp only [hf, Bool.not_false, if_true]
      have hL := (ih (dictSet into (normKey f) (get_field_d fromD f)) true
        (fun x hx => hnorm x (by simp [hx]))).mpr (Or.inl rfl)
      rw [hL]
      have hdf : dictHas into f = false := by rw [← hfd, hf]
      exact iff_of_true rfl (Or.inr ⟨f, by simp, hdf⟩)
    · show (mergeLoop false fromD fs into m).2 = true ↔
        m = true ∨ ∃ x ∈ f :: fs, dictHas into x = false
      rw [ih into m (fun x hx => hnorm x (by simp [hx]))]
      have hdf : dictHas into f = true := by rw [← hfd, hf]
      constructor
      · rintro (hm | ⟨x, hx, hdx⟩)
        · exact Or.inl hm
        · exact Or.inr ⟨x, by simp [hx], hdx⟩
      · rintro (hm | ⟨x, hx, hdx⟩)
        · exact Or.inl hm
        · rcases List.mem_cons.mp hx with rfl | hx'
          · rw [hdf] at hdx
            cases hdx
          · exact Or.inr ⟨x, hx', hdx⟩

/-- C6 (confirmed): merging a matching viable source into a destination
with overwrite disabled never alters a field already present in the
destination and keeps every destination field, adds every source-only
field with its source value, and reports the record modified exactly when
some source field was absent from the destination.  Source keys are
assumed stored in normalised form with no duplicates, as the record data
model guarantees. -/
theorem merge_no_overwrite (ms : Nat) (fromD intoD : Dict)
    (hmatch : matchM ms fromD intoD = some true)
    (hnorm : ∀ k ∈ dictKeys fromD, normKey k = k)
    (hnd : (dictKeys fromD).Nodup) :
    ∃ modified result, mergeM ms fromD intoD false = some (modified, result)
      ∧ (∀ k, dictHas intoD k = true →
          dictLookup result k = dictLookup intoD k ∧ dictHas result k = true)
      ∧ (∀ k ∈ dictKeys fromD, dictHas intoD k = false →
          dictLookup result k = some (get_field_d fromD k))
      ∧ (modified = true ↔ ∃ k ∈ dictKeys fromD, dictHas intoD k = false) := by
  have hq1 : minimumQso fromD = true := by
    cases hq : minimumQso fromD
    · rw [matchM, hq] at hmatch
      simp at hmatch
    · rfl
  have hq2 : minimumQso intoD = true := by
    cases hq : minimumQso intoD
    · rw [matchM, hq1, hq] at hmatch
      simp at hmatch
    · rfl
  refine ⟨(mergeLoop false fromD (dictKeys fromD) intoD false).2,
    (mergeLoop false fromD (dictKeys fromD) intoD false).1, ?_, ?_, ?_, ?_⟩
  · rw [mergeM, hq1, hq2, hmatch]
    simp
  · intro k hk
    exact mergeLoop_preserve fromD (dictKeys fromD) intoD false k hk
  · intro k hk hno
    exact mergeLoop_adds fromD (dictKeys fromD) intoD false k hnorm hnd hk hno
  · exact (mergeLoop_modified fromD (dictKeys fromD) intoD false hnorm).trans
      (by simp)

/-- C6 witness: the theorem applied to concrete matching records where the
destination carries NOTES equal to old and the source carries NOTES equal
to new plus the extra field RST_SENT. -/
theorem merge_no_overwrite_witness :
    ∃ modified result, mergeM 900 srcW destW false = some (modified, result)
      ∧ (∀ k, dictHas destW k = true →
          dictLookup result k = dictLookup destW k ∧ dictHas result k = true)
      ∧ (∀ k ∈ dictKeys srcW, dictHas destW k = false →
          dictLookup result k = some (get_field_d srcW k))
      ∧ (modified = true ↔ ∃ k ∈ dictKeys srcW, dictHas destW k = false) :=
  merge_no_overwrite 900 srcW destW (by rfl) (by decide) (by decide)

theorem heapGetD_set_ne (h : Heap) : ∀ (i j : Nat) (d : Dict), i ≠ j →
    (h.set i d).getD j [] = h.getD j [] := by
  induction h with
  | nil =>
    intro i j d _
    rfl
  | cons a t ih =>
    intro i j d hij
    cases i with
    | zero =>
      cases j with
      | zero => exact absurd rfl hij
      | succ j => rfl
    | succ i =>
      cases j with
      | zero => rfl
      | succ j =>
        simp only [List.set, List.getD_cons_succ]
        exact ih i j d (fun he => hij (by rw [he]))

theorem heapGetD_set_eq (h : Heap) : ∀ (i : Nat) (d : Dict), i < h.length →
    (h.set i d).getD i [] = d := by
  induction h with
  | nil =>
    intro i d hi
    simp at hi
  | cons a t ih =>
    intro i d hi
    cases i with
    | zero => rfl
    | succ i =>
      simp only [List.set, List.getD_cons_succ]
      exact ih i d (by simpa using hi)

theorem heap_set_self (h : Heap) : ∀ i : Nat, i < h.length →
    h.set i (heapGet h i) = h := by
  induction h with
  | nil =>
    intro i hi
    simp at hi
  | cons a t ih =>
    intro i hi
    cases i with
    | zero => rfl
    | succ i =>
      have ht := ih i (by simpa using hi)
      simp only [heapGet] at ht
      simp only [heapGet, List.getD_cons_succ, List.set]
      rw [ht]

theorem mergeLoopH_set (rf ri : Nat) (hne : rf ≠ ri) :
    ∀ (fs : List Str) (upd : Bool) (h : Heap) (m : Bool), ri < h.length →
    mergeLoopH upd rf ri fs h m =
      (h.set ri (mergeLoop upd (heapGet h rf) fs (heapGet h ri) m).1,
        (mergeLoop upd (heapGet h rf) fs (heapGet h ri) m).2) := by
  intro fs
  induction fs with
  | nil =>
    intro upd h m hri
    rw [mergeLoopH, mergeLoop, heap_set_self h ri hri]
  | cons f fs ih =>
    intro upd h m hri
    have hsetlen : ri < (heapSetField h ri f (get_field_d (heapGet h rf) f)).length := by
      simpa [heapSetField] using hri
    have hget :
        heapGet (heapSetField h ri f (get_field_d (heapGet h rf) f)) rf = heapGet h rf ∧
          heapGet (heapSetField h ri f (get_field_d (heapGet h rf) f)) ri =
            dictSet (heapGet h ri) (normKey f) (get_field_d (heapGet h rf) f) := by
      constructor
      · unfold heapSetField heapGet
        exact heapGetD_set_ne h ri rf _ (fun he => hne he.symm)
      · unfold heapSetField heapGet
        exact heapGetD_set_eq h ri _ hri
    rw [mergeLoopH, mergeLoop]
    cases hf : has_field_d (heapGet h ri) f
    · show mergeLoopH upd rf ri fs
          (heapSetField h ri f (get_field_d (heapGet h rf) f)) true =
        (h.set ri (mergeLoop upd (heapGet h rf) fs
          (dictSet (heapGet h ri) (normKey f) (get_field_d (heapGet h rf) f)) true).1,
          (mergeLoop upd (heapGet h rf) fs
            (dictSet (heapGet h ri) (normKey f) (get_field_d (heapGet h rf) f)) true).2)
      rw [ih upd _ true hsetlen, hget.1, hget.2]
      unfold heapSetField
      rw [List.set_set]
    · cases upd
      · show mergeLoopH false rf ri fs h m =
          (h.set ri (mergeLoop false (heapGet h rf) fs (heapGet h ri) m).1,
            (mergeLoop false (heapGet h rf) fs (heapGet h ri) m).2)
        exact ih false h m hri
      · cases hd : (get_field_d (heapGet h rf) f != get_field_d (heapGet h ri) f)
        · show mergeLoopH true rf ri fs h m =
            (h.set ri (mergeLoop true (heapGet h rf) fs (heapGet h ri) m).1,
              (mergeLoop true (heapGet h rf) fs (heapGet h ri) m).2)
          exact ih true h m hri
        · show mergeLoopH true rf ri fs
              (heapSetField h ri f (get_field_d (heapGet h rf) f)) true =
            (h.set ri (mergeLoop true (heapGet h rf) fs
              (dictSet (heapGet h ri) (normKey f) (get_field_d (heapGet h rf) f)) true).1,
              (mergeLoop true (heapGet h rf) fs
                (dictSet (heapGet h ri) (normKey f) (get_field_d (heapGet h rf) f)) true).2)
          rw [ih true _ true hsetlen, hget.1, hget.2]
          unfold heapSetField
          rw [List.set_set]

/-- C10 (confirmed): merge mutates the destination record object in place
and returns that very object: in the heap model the returned
merged_record reference is exactly the into_record reference, the heap
cell at that reference now holds the merge-loop result computed from the
two argument records, and every other heap cell is untouched. -/
theorem merge_returns_destination (ms : Nat) (h : Heap) (rf ri : Nat)
    (upd : Bool) (hne : rf ≠ ri)
    (hmatch : matchM ms (heapGet h rf) (heapGet h ri) = some true) :
    mergeH ms h rf ri upd =
      some (((mergeLoop upd (heapGet h rf) (dictKeys (heapGet h rf))
          (heapGet h ri) false).2, ri),
        h.set ri (mergeLoop upd (heapGet h rf) (dictKeys (heapGet h rf))
          (heapGet h ri) false).1)
    ∧ ∀ r, r ≠ ri →
        heapGet (h.set ri (mergeLoop upd (heapGet h rf)
          (dictKeys (heapGet h rf)) (heapGet h ri) false).1) r = heapGet h r := by
  have hq1 : minimumQso (heapGet h rf) = true := by
    cases hq : minimumQso (heapGet h rf)
    · rw [matchM, hq] at hmatch
      simp at hmatch
    · rfl
  have hq2 : minimumQso (heapGet h ri) = true := by
    cases hq : minimumQso (heapGet h ri)
    · rw [matchM, hq1, hq] at hmatch
      simp at hmatch
    · rfl
  have hri : ri < h.length := by
    by_contra hc
    push_neg at hc
    have hnil : heapGet h ri = [] := by
      unfold heapGet
      exact List.getD_eq_default _ _ hc
    rw [hnil] at hq2
    exact absurd hq2 (by decide)
  constructor
  · rw [mergeH, hq1, hq2, hmatch]
    simp only [Bool.not_true, Bool.false_eq_true, if_false]
    rw [mergeLoopH_set rf ri hne (dictKeys (heapGet h rf)) upd h false hri]
  · intro r hr
    unfold heapGet
    exact heapGetD_set_ne h ri r _ (fun he => hr he.symm)

/-- C10 witness: a two-object heap holding the concrete source and
destination records; merge returns reference one, the destination object,
with the heap updated only there. -/
theorem merge_returns_destination_witness :
    (mergeH 900 [srcW, destW] 0 1 false =
      some (((mergeLoop false (heapGet [srcW, destW] 0)
          (dictKeys (heapGet [srcW, destW] 0)) (heapGet [srcW, destW] 1) false).2, 1),
        List.set [srcW, destW] 1 (mergeLoop false (heapGet [srcW, destW] 0)
          (dictKeys (heapGet [srcW, destW] 0)) (heapGet [srcW, destW] 1) false).1))
    ∧ ∀ r, r ≠ 1 →
        heapGet (List.set [srcW, destW] 1 (mergeLoop false (heapGet [srcW, destW] 0)
          (dictKeys (heapGet [srcW, destW] 0)) (heapGet [srcW, destW] 1) false).1) r =
          heapGet [srcW, destW] r :=
  merge_returns_destination 900 [srcW, destW] 0 1 false (by decide) (by rfl)

end Adif
